import Mathlib

/-!
Verification development for the snake simulation core (src/main.rs).

The Rust source is a Bevy ECS program.  We embed it shallowly:

* entities are natural-number ids;
* the per-entity component pair (Position, SnakeSegment) is bundled into one
  record SnakeSegment with fields pos and next, and the component store for
  segments is an association list from ids to those records (insertion order
  is spawn order, matching query iteration order);
* the unique SnakeHead component lives directly in the World record, next to
  the id of the entity carrying it;
* food entities are (id, Position) pairs; GrowEvent values are the carried
  positions, kept FIFO in a list (Bevy events are drained in send order);
* Rust i32 arithmetic is modelled by Int (the values stay tiny, far from any
  overflow), and rem_euclid by Int.emod, which is likewise a non-negative
  remainder for a positive modulus;
* rand::random::<f32>() draws, which lie in [0,1), are modelled as exact
  rationals; commands (deferred entity spawns/despawns) are applied to the
  modelled store at the point the system issues them in grow_snake and
  eat_food, which coincides with the end-of-stage net effect for the drains
  the schedule can produce (at most one grow event per tick); the faithful
  deferred-command drain, under which two queued grow events make the
  source's tail unwrap panic, is modelled separately by grow_snake_cmds;
* the unbounded rejection-sampling loop of spawn_food is given its stream of
  draws as an explicit finite list and returns none when the list is
  exhausted, and the unbounded entity-chasing loop of move_snake is run with
  fuel; lookups that the Rust code unwraps are modelled with Option.
-/

/-- const ARENA_SIZE: u32 = 25 (used in the source only as an i32 / f32 cast). -/
def ARENA_SIZE : Int := 25

/-- enum Direction { Up, Right, Down, Left }. -/
inductive Direction where
  | Up
  | Right
  | Down
  | Left
deriving DecidableEq, Repr, Fintype

/-- struct Position { x: i32, y: i32 } with derived equality. -/
structure Position where
  x : Int
  y : Int
deriving DecidableEq, Repr, Inhabited

/-- Position::do_move: add the unit vector of the direction, reducing the
changed coordinate with rem_euclid(ARENA_SIZE). -/
def Position.do_move (p : Position) (direction : Direction) : Position :=
  match direction with
  | Direction.Up => { x := p.x, y := (p.y + 1) % ARENA_SIZE }
  | Direction.Right => { x := (p.x + 1) % ARENA_SIZE, y := p.y }
  | Direction.Down => { x := p.x, y := (p.y - 1) % ARENA_SIZE }
  | Direction.Left => { x := (p.x - 1) % ARENA_SIZE, y := p.y }

/-- struct SnakeHead { direction, next_direction }. -/
structure SnakeHead where
  direction : Direction
  next_direction : Direction
deriving DecidableEq, Repr, Fintype

/-- One segment entity: its Position component together with the
SnakeSegment component (next: Option<Entity>). -/
structure SnakeSegment where
  pos : Position
  next : Option Nat
deriving DecidableEq, Repr

/-- The segment component store: ids paired with segment data, in spawn
order. -/
abbrev Store := List (Nat × SnakeSegment)

/-- The keyboard sample handle_input reads: which of the four arrow keys are
pressed. -/
structure KeyboardInput where
  up : Bool
  right : Bool
  down : Bool
  left : Bool
deriving DecidableEq, Repr, Fintype

/-- The whole ECS world, restricted to the state the simulation core
touches. -/
structure World where
  segs : Store
  headId : Nat
  head : SnakeHead
  foods : List (Nat × Position)
  events : List Position
  nextId : Nat
deriving DecidableEq, Repr

/-- Query lookup of the segment components on one entity
(query.get_mut(entity) and the single() head accesses). -/
def lookupSeg (segs : Store) (e : Nat) : Option SnakeSegment :=
  match segs with
  | [] => none
  | q :: rest => if q.1 = e then some q.2 else lookupSeg rest e

/-- Mutating the Position component of one entity through a query. -/
def updatePos (segs : Store) (e : Nat) (p : Position) : Store :=
  match segs with
  | [] => []
  | q :: rest =>
    (if q.1 = e then (q.1, { q.2 with pos := p }) else q) :: updatePos rest e p

/-- Mutating the next field of one entity's SnakeSegment through a query. -/
def setNext (segs : Store) (e : Nat) (nx : Option Nat) : Store :=
  match segs with
  | [] => []
  | q :: rest =>
    (if q.1 = e then (q.1, { q.2 with next := nx }) else q) :: setNext rest e nx

/-- The tail lookup both eat_food and grow_snake perform:
iter().find(|(_, s)| s.next.is_none()). -/
def findTail (segs : Store) : Option (Nat × SnakeSegment) :=
  segs.find? (fun q => q.2.next.isNone)

/-- fn handle_input: writes next_direction from the first pressed arrow key
(testing order Up, Right, Down, Left) whose direction is not opposite to the
current one. -/
def handle_input (keyboard_input : KeyboardInput) (snake_head : SnakeHead) : SnakeHead :=
  if keyboard_input.up = true ∧ snake_head.direction ≠ Direction.Down then
    { snake_head with next_direction := Direction.Up }
  else if keyboard_input.right = true ∧ snake_head.direction ≠ Direction.Left then
    { snake_head with next_direction := Direction.Right }
  else if keyboard_input.down = true ∧ snake_head.direction ≠ Direction.Up then
    { snake_head with next_direction := Direction.Down }
  else if keyboard_input.left = true ∧ snake_head.direction ≠ Direction.Right then
    { snake_head with next_direction := Direction.Left }
  else
    snake_head

/-- The keyboard sample in which exactly the key for the given direction is
pressed; request(d) of the spec is handle_input on this sample. -/
def onlyKey (d : Direction) : KeyboardInput :=
  match d with
  | Direction.Up => { up := true, right := false, down := false, left := false }
  | Direction.Right => { up := false, right := true, down := false, left := false }
  | Direction.Down => { up := false, right := false, down := true, left := false }
  | Direction.Left => { up := false, right := false, down := false, left := true }

/-- Operation request(direction) of the Direction Latch: one direction key
pressed, routed through handle_input. -/
def request (d : Direction) (h : SnakeHead) : SnakeHead :=
  handle_input (onlyKey d) h

/-- The commit the Movement Engine performs first:
snake_head.direction = snake_head.next_direction. -/
def commitDirection (h : SnakeHead) : SnakeHead :=
  { h with direction := h.next_direction }

/-- Modelled from the spec: the opposite relation on directions
(Up-Down, Left-Right), which the source encodes by literal comparisons in
handle_input. -/
def opposite (d : Direction) : Direction :=
  match d with
  | Direction.Up => Direction.Down
  | Direction.Right => Direction.Left
  | Direction.Down => Direction.Up
  | Direction.Left => Direction.Right

/-- The loop body of fn move_snake: starting at the head entity, write the
carried position into the visited segment, carry its old position, and follow
the next reference until a segment without one.  The Rust loop spins forever
if the entity lookup ever fails, hence the fuel; fuel segs.length is enough
for a well-formed chain. -/
def moveLoop (fuel : Nat) (segs : Store) (entity : Nat) (next_position : Position) : Store :=
  match fuel with
  | 0 => segs
  | fuel + 1 =>
    match lookupSeg segs entity with
    | none => moveLoop fuel segs entity next_position
    | some s =>
      let segs' := updatePos segs entity next_position
      match s.next with
      | some next_entity => moveLoop fuel segs' next_entity s.pos
      | none => segs'

/-- fn move_snake: commit the latched direction, step the head position, and
shift every segment to its predecessor's old position. -/
def move_snake (w : World) : World :=
  let head := commitDirection w.head
  match lookupSeg w.segs w.headId with
  | none => { w with head := head }
  | some hs =>
    let next_position := hs.pos.do_move head.direction
    { w with
        head := head
        segs := moveLoop w.segs.length w.segs w.headId next_position }

/-- fn eat_food: for every food whose position equals the head position,
despawn it and send a GrowEvent carrying the current tail's position.  The
iteration runs over the snapshot of foods taken at entry (despawns are
deferred commands in Bevy and do not disturb the iteration).  The loop body
is eatStep, the loop itself eat_food. -/
def eatStep (hd : Position) (acc : World) (f : Nat × Position) : World :=
  if f.2 = hd then
    match findTail acc.segs with
    | none => acc
    | some t =>
      { acc with
          foods := acc.foods.filter (fun g => g.1 ≠ f.1)
          events := acc.events ++ [t.2.pos] }
  else acc

def eat_food (w : World) : World :=
  match lookupSeg w.segs w.headId with
  | none => w
  | some hs => w.foods.foldl (eatStep hs.pos) w

/-- One iteration of the grow_snake event loop: spawn a segment with
next: None at the recorded position under a fresh id, and point the current
tail's next at it.  The commanded spawn is applied to the store immediately
here; in Bevy it is deferred to the end of the stage, which agrees with this
definition only for drains of at most one event - the faithful deferred
drain, under which a longer drain panics, is growCmdLoop below. -/
def growOne (segs : Store) (freshId : Nat) (p : Position) : Store :=
  match findTail segs with
  | none => segs
  | some t => setNext segs t.1 (some freshId) ++ [(freshId, { pos := p, next := none })]

/-- One event of the grow_snake drain together with the bump of the
fresh-id counter. -/
def growStep (acc : Store × Nat) (p : Position) : Store × Nat :=
  (growOne acc.1 acc.2 p, acc.2 + 1)

/-- fn grow_snake: drain the GrowEvent queue in FIFO order, appending one
segment per event, with spawns applied immediately (see growOne; the
scheduler queues at most one event per tick, where this coincides with the
deferred-command semantics of grow_snake_cmds below). -/
def grow_snake (w : World) : World :=
  let r := w.events.foldl growStep (w.segs, w.nextId)
  { w with segs := r.1, nextId := r.2, events := [] }

/-- fn spawn_snake: the startup chain - tail at (14,12), middle at (13,12),
head at (12,12) heading Left, linked head to tail.  Entity ids follow spawn
order 0, 1, 2. -/
def spawn_snake : World :=
  { segs :=
      [ (0, { pos := { x := 14, y := 12 }, next := none })
      , (1, { pos := { x := 13, y := 12 }, next := some 0 })
      , (2, { pos := { x := 12, y := 12 }, next := some 1 }) ]
    headId := 2
    head := { direction := Direction.Left, next_direction := Direction.Left }
    foods := []
    events := []
    nextId := 3 }

/-- One random draw of the spawner:
(rand::random::<f32>() * ARENA_SIZE as f32).floor() as i32, with the f32 in
[0,1) modelled as an exact rational. -/
def drawCoord (u : ℚ) : Int :=
  ⌊u * (ARENA_SIZE : ℚ)⌋

/-- The rejection-sampling loop of fn spawn_food over an explicit list of
draws: keep drawing until the candidate collides with no food position and no
segment position.  Returns none when the draws run out (the Rust loop would
just keep drawing). -/
def spawnFoodLoop (draws : List (ℚ × ℚ)) (foodPs segPs : List Position) : Option Position :=
  match draws with
  | [] => none
  | (u, v) :: rest =>
    let food_position : Position := { x := drawCoord u, y := drawCoord v }
    if (foodPs ++ segPs).all (fun q => food_position ≠ q) then some food_position
    else spawnFoodLoop rest foodPs segPs

/-- fn spawn_food: run the rejection loop against the current food and
segment positions and spawn a food entity at the resulting cell. -/
def spawn_food (draws : List (ℚ × ℚ)) (w : World) : Option World :=
  match spawnFoodLoop draws (w.foods.map Prod.snd) (w.segs.map (fun q => q.2.pos)) with
  | none => none
  | some p => some { w with foods := w.foods ++ [(w.nextId, p)], nextId := w.nextId + 1 }

/-- The positions read along a given id path through the store. -/
def chainPositions (segs : Store) (ids : List Nat) : List Position :=
  ids.filterMap (fun e => (lookupSeg segs e).map SnakeSegment.pos)

/-- The id path of a well-formed chain: each id resolves in the store, each
link points at the next id, the last has no link, and no id repeats. -/
inductive Chain (segs : Store) : Nat → List Nat → Prop where
  | single (e : Nat) (s : SnakeSegment) :
      lookupSeg segs e = some s → s.next = none → Chain segs e [e]
  | cons (e : Nat) (s : SnakeSegment) (e2 : Nat) (ids : List Nat) :
      lookupSeg segs e = some s → s.next = some e2 → Chain segs e2 ids →
      e ∉ ids → Chain segs e (e :: ids)

/-- The well-formedness invariant of the world: the ids reachable from the
head entity form a chain, every stored segment lies on it, ids are unique in
the store, and all of them are below the fresh-id watermark. -/
def WF (w : World) : Prop :=
  ∃ ids, Chain w.segs w.headId ids ∧
    (∀ i ∈ w.segs.map Prod.fst, i ∈ ids) ∧
    (w.segs.map Prod.fst).Nodup ∧
    (∀ i ∈ w.segs.map Prod.fst, i < w.nextId)

/-- The states the scheduled systems can reach from the startup world:
any number of input samples, movement ticks, eat scans, grow drains and food
spawns, in any order. -/
inductive Reachable : World → Prop where
  | init : Reachable spawn_snake
  | input (w : World) (k : KeyboardInput) :
      Reachable w → Reachable { w with head := handle_input k w.head }
  | move (w : World) : Reachable w → Reachable (move_snake w)
  | eat (w : World) : Reachable w → Reachable (eat_food w)
  | grow (w : World) : Reachable w → Reachable (grow_snake w)
  | spawn (w w' : World) (draws : List (ℚ × ℚ)) :
      Reachable w → spawn_food draws w = some w' → Reachable w'

/-! ### Direction-latch operation sequences (for claim C3) -/

/-- One interaction with the Direction Latch: an input sample (any keyboard
state) or the commit move_snake performs at a tick. -/
inductive LatchOp where
  | key (k : KeyboardInput)
  | commit
deriving DecidableEq, Repr

/-- Apply one latch operation to the head state. -/
def applyLatch (h : SnakeHead) (o : LatchOp) : SnakeHead :=
  match o with
  | LatchOp.key k => handle_input k h
  | LatchOp.commit => commitDirection h

/-- Run a sequence of latch operations, oldest first. -/
def runLatch (h : SnakeHead) (ops : List LatchOp) : SnakeHead :=
  ops.foldl applyLatch h

/-- The latch invariant: the pending heading is never the opposite of the
current one. -/
def latchInv (h : SnakeHead) : Prop :=
  h.next_direction ≠ opposite h.direction

instance (h : SnakeHead) : Decidable (latchInv h) :=
  inferInstanceAs (Decidable (h.next_direction ≠ opposite h.direction))

/-- The arena-bound predicate of a position: both coordinates lie in
[0, ARENA_SIZE). -/
def inArena (p : Position) : Prop :=
  0 ≤ p.x ∧ p.x < ARENA_SIZE ∧ 0 ≤ p.y ∧ p.y < ARENA_SIZE

instance (p : Position) : Decidable (inArena p) :=
  inferInstanceAs (Decidable (0 ≤ p.x ∧ p.x < ARENA_SIZE ∧ 0 ≤ p.y ∧ p.y < ARENA_SIZE))

/-- Modelled from the spec: the unit vector of a direction, with Up as +y. -/
def unitVec (d : Direction) : Int × Int :=
  match d with
  | Direction.Up => (0, 1)
  | Direction.Right => (1, 0)
  | Direction.Down => (0, -1)
  | Direction.Left => (-1, 0)

/-- Modelled from the spec: add the unit vector and reduce both coordinates
modulo ARENA_SIZE with a non-negative remainder. -/
def stepSpec (p : Position) (d : Direction) : Position :=
  { x := (p.x + (unitVec d).1) % ARENA_SIZE, y := (p.y + (unitVec d).2) % ARENA_SIZE }

/-! ### Theorems -/

theorem applyLatch_inv (h : SnakeHead) (o : LatchOp) (hi : latchInv h) :
    latchInv (applyLatch h o) := by
  cases o with
  | key k =>
    revert hi
    revert h
    revert k
    decide
  | commit =>
    revert hi
    revert h
    decide

theorem runLatch_inv (h : SnakeHead) (ops : List LatchOp) (hi : latchInv h) :
    latchInv (runLatch h ops) := by
  induction ops generalizing h with
  | nil => exact hi
  | cons o rest ih => exact ih (applyLatch h o) (applyLatch_inv h o hi)

/-- Claim C7: do_move is total, adds the unit vector of the direction and
wraps each coordinate into [0, ARENA_SIZE) by a non-negative remainder; in
particular Left from x = 0 lands at x = ARENA_SIZE - 1 and Right from
x = ARENA_SIZE - 1 lands at x = 0. -/
theorem do_move_wrap :
    (∀ (p : Position) (d : Direction), inArena p →
      inArena (p.do_move d) ∧ p.do_move d = stepSpec p d)
    ∧ (∀ y : Int,
        Position.do_move { x := 0, y := y } Direction.Left = { x := ARENA_SIZE - 1, y := y })
    ∧ (∀ y : Int,
        Position.do_move { x := ARENA_SIZE - 1, y := y } Direction.Right = { x := 0, y := y }) := by
  refine ⟨?_, ?_, ?_⟩
  · intro p d hp
    cases d <;>
      simp [Position.do_move, stepSpec, unitVec, inArena, ARENA_SIZE,
        Position.mk.injEq] at hp ⊢ <;>
      omega
  · intro y
    simp [Position.do_move, ARENA_SIZE, Position.mk.injEq]
  · intro y
    simp [Position.do_move, ARENA_SIZE, Position.mk.injEq]

/-- Witness for C7 at the concrete position (0, 12) stepping Left. -/
theorem do_move_wrap_witness :
    inArena { x := 0, y := 12 } ∧
      (inArena (Position.do_move { x := 0, y := 12 } Direction.Left) ∧
        Position.do_move { x := 0, y := 12 } Direction.Left
          = stepSpec { x := 0, y := 12 } Direction.Left) :=
  ⟨by decide, do_move_wrap.1 { x := 0, y := 12 } Direction.Left (by decide)⟩

/-- Claim C3: request(d) overwrites the pending heading only when d is not
the opposite of the current heading and is otherwise ignored; along every
sequence of requests and commits started from a latch holding one heading,
the heading installed by a commit is never the opposite of the heading it
replaces; and from current = Left, request(Right) followed by commit leaves
current = Left. -/
theorem direction_latch_no_reversal :
    (∀ (d : Direction) (h : SnakeHead),
      request d h =
        if d = opposite h.direction then h else { h with next_direction := d })
    ∧ (∀ (d0 : Direction) (ops : List LatchOp),
        (commitDirection (runLatch { direction := d0, next_direction := d0 } ops)).direction
          ≠ opposite (runLatch { direction := d0, next_direction := d0 } ops).direction)
    ∧ (commitDirection
        (request Direction.Right
          { direction := Direction.Left, next_direction := Direction.Left })).direction
        = Direction.Left := by
  refine ⟨by decide, ?_, by decide⟩
  intro d0 ops
  have h0 : latchInv { direction := d0, next_direction := d0 } := by
    revert d0
    decide
  exact runLatch_inv _ ops h0

/-- Witness for C3: the concrete rejected reversal of Scenario D. -/
theorem direction_latch_no_reversal_witness :
    (commitDirection
      (request Direction.Right
        { direction := Direction.Left, next_direction := Direction.Left })).direction
      = Direction.Left :=
  direction_latch_no_reversal.2.2

/-- Claim C10: when several keys are pressed in one sample, handle_input
applies at most one of them, preferring Up, then Right, then Down, then Left;
a pressed key is skipped only by a higher-priority accepted key or by its own
anti-reversal check, and when no pressed key passes, the head state is
untouched.  The current heading is never modified. -/
theorem handle_input_priority :
    ∀ (k : KeyboardInput) (h : SnakeHead),
      ((handle_input k h).direction = h.direction)
      ∧ (k.up = true → h.direction ≠ Direction.Down →
          handle_input k h = { h with next_direction := Direction.Up })
      ∧ (¬ (k.up = true ∧ h.direction ≠ Direction.Down) →
          k.right = true → h.direction ≠ Direction.Left →
          handle_input k h = { h with next_direction := Direction.Right })
      ∧ (¬ (k.up = true ∧ h.direction ≠ Direction.Down) →
          ¬ (k.right = true ∧ h.direction ≠ Direction.Left) →
          k.down = true → h.direction ≠ Direction.Up →
          handle_input k h = { h with next_direction := Direction.Down })
      ∧ (¬ (k.up = true ∧ h.direction ≠ Direction.Down) →
          ¬ (k.right = true ∧ h.direction ≠ Direction.Left) →
          ¬ (k.down = true ∧ h.direction ≠ Direction.Up) →
          k.left = true → h.direction ≠ Direction.Right →
          handle_input k h = { h with next_direction := Direction.Left })
      ∧ (¬ (k.up = true ∧ h.direction ≠ Direction.Down) →
          ¬ (k.right = true ∧ h.direction ≠ Direction.Left) →
          ¬ (k.down = true ∧ h.direction ≠ Direction.Up) →
          ¬ (k.left = true ∧ h.direction ≠ Direction.Right) →
          handle_input k h = h) := by
  refine fun k h => ⟨?_, ?_, ?_, ?_, ?_, ?_⟩ <;> revert h <;> revert k <;> decide

/-- Witness for C10: all four keys pressed while heading Left resolves to
the highest-priority valid key, Up. -/
theorem handle_input_priority_witness :
    handle_input { up := true, right := true, down := true, left := true }
        { direction := Direction.Left, next_direction := Direction.Left }
      = { direction := Direction.Left, next_direction := Direction.Up } :=
  (handle_input_priority
      { up := true, right := true, down := true, left := true }
      { direction := Direction.Left, next_direction := Direction.Left }).2.1
    rfl (by decide)

/-! ### Concrete eat-grow scenario (claim C2) -/

/-- Walking the chain ids from an entity by following next references (fuel
bounds the walk; segs.length is enough for well-formed chains). -/
def chainIds (fuel : Nat) (segs : Store) (e : Nat) : List Nat :=
  match fuel with
  | 0 => []
  | fuel + 1 =>
    match lookupSeg segs e with
    | none => []
    | some s =>
      match s.next with
      | none => [e]
      | some e2 => e :: chainIds fuel segs e2

/-- The body cells of the snake, head to tail. -/
def snakeCells (w : World) : List Position :=
  chainPositions w.segs (chainIds w.segs.length w.segs w.headId)

/-- The world right after the movement of tick T in Scenario C: the head has
just arrived on the food cell (11,12), the chain is
[(11,12),(12,12),(13,12)] head to tail, and the detector has not yet run. -/
def scenarioC : World :=
  { segs :=
      [ (0, { pos := { x := 13, y := 12 }, next := none })
      , (1, { pos := { x := 12, y := 12 }, next := some 0 })
      , (2, { pos := { x := 11, y := 12 }, next := some 1 }) ]
    headId := 2
    head := { direction := Direction.Left, next_direction := Direction.Left }
    foods := [(3, { x := 11, y := 12 })]
    events := []
    nextId := 4 }

/-- Claim C2: in Scenario C the tick-T detector despawns the food at (11,12)
and enqueues a grow entry carrying the tail cell (13,12); the tick-T+1 growth
pass appends a tail segment at (13,12) before tick T+1's movement, and after
that movement the chain has length 4 with cells
[(10,12),(11,12),(12,12),(13,12)]. -/
theorem scenario_eat_grow :
    (eat_food scenarioC).foods = []
    ∧ (eat_food scenarioC).events = [{ x := 13, y := 12 }]
    ∧ snakeCells (grow_snake (eat_food scenarioC))
        = [ { x := 11, y := 12 }, { x := 12, y := 12 }
          , { x := 13, y := 12 }, { x := 13, y := 12 } ]
    ∧ snakeCells (move_snake (grow_snake (eat_food scenarioC)))
        = [ { x := 10, y := 12 }, { x := 11, y := 12 }
          , { x := 12, y := 12 }, { x := 13, y := 12 } ]
    ∧ (snakeCells (move_snake (grow_snake (eat_food scenarioC)))).length = 4 := by
  decide

/-! ### Store lemmas -/

theorem nodup_subset_length {l1 l2 : List Nat} (h1 : l1.Nodup) (h2 : l1 ⊆ l2) :
    l1.length ≤ l2.length := by
  calc l1.length = l1.toFinset.card := (List.toFinset_card_of_nodup h1).symm
    _ ≤ l2.toFinset.card := by
        apply Finset.card_le_card
        intro x hx
        rw [List.mem_toFinset] at hx ⊢
        exact h2 hx
    _ ≤ l2.length := List.toFinset_card_le l2

theorem lookupSeg_updatePos_self (segs : Store) (e : Nat) (p : Position) :
    lookupSeg (updatePos segs e p) e
      = (lookupSeg segs e).map (fun s => { s with pos := p }) := by
  induction segs with
  | nil => rfl
  | cons q rest ih =>
    by_cases hq : q.1 = e
    · simp [lookupSeg, updatePos, hq]
    · simpa [lookupSeg, updatePos, hq] using ih

theorem lookupSeg_updatePos_ne (segs : Store) (e i : Nat) (p : Position) (h : i ≠ e) :
    lookupSeg (updatePos segs e p) i = lookupSeg segs i := by
  induction segs with
  | nil => rfl
  | cons q rest ih =>
    by_cases hq : q.1 = e
    · have hne : e ≠ i := fun hc => h hc.symm
      simpa [lookupSeg, updatePos, hq, hne] using ih
    · by_cases hqi : q.1 = i
      · simp [lookupSeg, updatePos, hq, hqi, h]
      · simpa [lookupSeg, updatePos, hq, hqi] using ih

theorem lookupSeg_setNext_self (segs : Store) (e : Nat) (nx : Option Nat) :
    lookupSeg (setNext segs e nx) e
      = (lookupSeg segs e).map (fun s => { s with next := nx }) := by
  induction segs with
  | nil => rfl
  | cons q rest ih =>
    by_cases hq : q.1 = e
    · simp [lookupSeg, setNext, hq]
    · simpa [lookupSeg, setNext, hq] using ih

theorem lookupSeg_setNext_ne (segs : Store) (e i : Nat) (nx : Option Nat) (h : i ≠ e) :
    lookupSeg (setNext segs e nx) i = lookupSeg segs i := by
  induction segs with
  | nil => rfl
  | cons q rest ih =>
    by_cases hq : q.1 = e
    · have hne : e ≠ i := fun hc => h hc.symm
      simpa [lookupSeg, setNext, hq, hne] using ih
    · by_cases hqi : q.1 = i
      · simp [lookupSeg, setNext, hq, hqi, h]
      · simpa [lookupSeg, setNext, hq, hqi] using ih

theorem keys_updatePos (segs : Store) (e : Nat) (p : Position) :
    (updatePos segs e p).map Prod.fst = segs.map Prod.fst := by
  induction segs with
  | nil => rfl
  | cons q rest ih =>
    by_cases hq : q.1 = e <;> simp [updatePos, hq] at ih ⊢ <;> exact ih

theorem keys_setNext (segs : Store) (e : Nat) (nx : Option Nat) :
    (setNext segs e nx).map Prod.fst = segs.map Prod.fst := by
  induction segs with
  | nil => rfl
  | cons q rest ih =>
    by_cases hq : q.1 = e <;> simp [setNext, hq] at ih ⊢ <;> exact ih

theorem lookupSeg_isSome_iff (segs : Store) (i : Nat) :
    (lookupSeg segs i).isSome = true ↔ i ∈ segs.map Prod.fst := by
  induction segs with
  | nil => simp [lookupSeg]
  | cons q rest ih =>
    by_cases hq : q.1 = i
    · simp [lookupSeg, hq]
    · have hne : i ≠ q.1 := fun hc => hq hc.symm
      simpa [lookupSeg, hq, hne] using ih

theorem lookupSeg_eq_none_iff (segs : Store) (i : Nat) :
    lookupSeg segs i = none ↔ i ∉ segs.map Prod.fst := by
  rw [← lookupSeg_isSome_iff]
  cases lookupSeg segs i <;> simp

theorem lookupSeg_append_left (segs ts : Store) (i : Nat) (s : SnakeSegment)
    (h : lookupSeg segs i = some s) : lookupSeg (segs ++ ts) i = some s := by
  induction segs with
  | nil => simp [lookupSeg] at h
  | cons q rest ih =>
    by_cases hq : q.1 = i
    · simpa [lookupSeg, hq] using h
    · rw [List.cons_append]
      simp only [lookupSeg, hq, if_false] at h ⊢
      exact ih h

theorem lookupSeg_append_right (segs ts : Store) (i : Nat)
    (h : lookupSeg segs i = none) : lookupSeg (segs ++ ts) i = lookupSeg ts i := by
  induction segs with
  | nil => rfl
  | cons q rest ih =>
    by_cases hq : q.1 = i
    · simp [lookupSeg, hq] at h
    · rw [List.cons_append]
      simp only [lookupSeg, hq, if_false] at h ⊢
      exact ih h

theorem lookupSeg_of_mem_nodup (segs : Store) (q : Nat × SnakeSegment)
    (hnd : (segs.map Prod.fst).Nodup) (hm : q ∈ segs) : lookupSeg segs q.1 = some q.2 := by
  induction segs with
  | nil => simp at hm
  | cons r rest ih =>
    simp only [List.map_cons, List.nodup_cons] at hnd
    rcases List.mem_cons.mp hm with hq | hq
    · subst hq
      simp [lookupSeg]
    · have hne : r.1 ≠ q.1 := by
        intro hc
        exact hnd.1 (by simpa [hc] using List.mem_map_of_mem Prod.fst hq)
      simp only [lookupSeg, hne, if_false]
      exact ih hnd.2 hq

/-! ### Chain lemmas -/

theorem chain_ne_nil {segs : Store} {e : Nat} {ids : List Nat} (hc : Chain segs e ids) :
    ids ≠ [] := by
  cases hc <;> simp

theorem chain_head {segs : Store} {e : Nat} {ids : List Nat} (hc : Chain segs e ids) :
    ∃ rest, ids = e :: rest := by
  cases hc with
  | single e s hl hn => exact ⟨[], rfl⟩
  | cons e s e2 ids hl hn hc2 hm => exact ⟨ids, rfl⟩

theorem chain_nodup {segs : Store} {e : Nat} {ids : List Nat} (hc : Chain segs e ids) :
    ids.Nodup := by
  induction hc with
  | single e s hl hn => simp
  | cons e s e2 ids hl hn hc2 hm ih => exact List.nodup_cons.mpr ⟨hm, ih⟩

theorem chain_lookup_isSome {segs : Store} {e : Nat} {ids : List Nat} (hc : Chain segs e ids) :
    ∀ i ∈ ids, (lookupSeg segs i).isSome = true := by
  induction hc with
  | single e s hl hn =>
    intro i hi
    simp at hi
    subst hi
    simp [hl]
  | cons e s e2 ids hl hn hc2 hm ih =>
    intro i hi
    rcases List.mem_cons.mp hi with hi | hi
    · subst hi
      simp [hl]
    · exact ih i hi

theorem chain_subset_keys {segs : Store} {e : Nat} {ids : List Nat} (hc : Chain segs e ids) :
    ∀ i ∈ ids, i ∈ segs.map Prod.fst := by
  intro i hi
  exact (lookupSeg_isSome_iff segs i).mp (chain_lookup_isSome hc i hi)

theorem chain_updatePos {segs : Store} {e0 : Nat} {ids : List Nat} (e : Nat) (p : Position)
    (hc : Chain segs e0 ids) : Chain (updatePos segs e p) e0 ids := by
  induction hc with
  | single e1 s hl hn =>
    by_cases he : e1 = e
    · subst he
      refine Chain.single e1 { s with pos := p } ?_ hn
      rw [lookupSeg_updatePos_self, hl]
      rfl
    · exact Chain.single e1 s (by rw [lookupSeg_updatePos_ne segs e e1 p he, hl]) hn
  | cons e1 s e2 ids hl hn hc2 hm ih =>
    by_cases he : e1 = e
    · subst he
      refine Chain.cons e1 { s with pos := p } e2 ids ?_ hn ih hm
      rw [lookupSeg_updatePos_self, hl]
      rfl
    · exact Chain.cons e1 s e2 ids
        (by rw [lookupSeg_updatePos_ne segs e e1 p he, hl]) hn ih hm

theorem chain_moveLoop (fuel : Nat) :
    ∀ (segs : Store) (ent : Nat) (np : Position) {hid : Nat} {ids : List Nat},
      Chain segs hid ids → Chain (moveLoop fuel segs ent np) hid ids := by
  induction fuel with
  | zero => intro segs ent np hid ids hc; exact hc
  | succ f ih =>
    intro segs ent np hid ids hc
    show Chain (moveLoop (f + 1) segs ent np) hid ids
    rw [moveLoop]
    cases hl : lookupSeg segs ent with
    | none => exact ih segs ent np hc
    | some s =>
      show Chain
        (match s.next with
        | some ne => moveLoop f (updatePos segs ent np) ne s.pos
        | none => updatePos segs ent np) hid ids
      cases hn : s.next with
      | some e2 =>
        exact ih (updatePos segs ent np) e2 s.pos (chain_updatePos ent np hc)
      | none =>
        exact chain_updatePos ent np hc

theorem keys_moveLoop (fuel : Nat) :
    ∀ (segs : Store) (ent : Nat) (np : Position),
      (moveLoop fuel segs ent np).map Prod.fst = segs.map Prod.fst := by
  induction fuel with
  | zero => intro segs ent np; rfl
  | succ f ih =>
    intro segs ent np
    rw [moveLoop]
    cases hl : lookupSeg segs ent with
    | none => exact ih segs ent np
    | some s =>
      show List.map Prod.fst
        (match s.next with
        | some ne => moveLoop f (updatePos segs ent np) ne s.pos
        | none => updatePos segs ent np) = List.map Prod.fst segs
      cases hn : s.next with
      | some e2 =>
        rw [ih (updatePos segs ent np) e2 s.pos, keys_updatePos]
      | none =>
        exact keys_updatePos segs ent np

theorem chainPositions_cons (segs : Store) (i : Nat) (ids : List Nat) (s : SnakeSegment)
    (hl : lookupSeg segs i = some s) :
    chainPositions segs (i :: ids) = s.pos :: chainPositions segs ids := by
  simp [chainPositions, List.filterMap_cons, hl]

theorem chainPositions_congr (ids : List Nat) (s1 s2 : Store)
    (h : ∀ i ∈ ids, (lookupSeg s1 i).map SnakeSegment.pos
        = (lookupSeg s2 i).map SnakeSegment.pos) :
    chainPositions s1 ids = chainPositions s2 ids := by
  induction ids with
  | nil => rfl
  | cons i ids ih =>
    have h1 := h i (List.mem_cons_self i ids)
    have h2 := ih (fun j hj => h j (List.mem_cons_of_mem i hj))
    simp only [chainPositions, List.filterMap_cons] at h2 ⊢
    cases hl1 : lookupSeg s1 i with
    | none =>
      rw [hl1] at h1
      cases hl2 : lookupSeg s2 i with
      | none => exact h2
      | some s => rw [hl2] at h1; simp at h1
    | some s =>
      rw [hl1] at h1
      cases hl2 : lookupSeg s2 i with
      | none => rw [hl2] at h1; simp at h1
      | some t =>
        rw [hl2] at h1
        simp at h1
        simp [h1, h2]

theorem chainPositions_length {segs : Store} {e : Nat} {ids : List Nat}
    (hc : Chain segs e ids) : (chainPositions segs ids).length = ids.length := by
  induction hc with
  | single e s hl hn => simp [chainPositions, List.filterMap_cons, hl]
  | cons e s e2 ids hl hn hc2 hm ih =>
    simp only [chainPositions, List.filterMap_cons, hl, Option.map_some] at ih ⊢
    simp [ih]

theorem moveLoop_spec (ids : List Nat) :
    ∀ (segs : Store) (e : Nat) (np : Position) (fuel : Nat),
      Chain segs e ids → ids.length ≤ fuel →
      chainPositions (moveLoop fuel segs e np) ids
          = np :: (chainPositions segs ids).dropLast
      ∧ ∀ j, j ∉ ids → lookupSeg (moveLoop fuel segs e np) j = lookupSeg segs j := by
  induction ids with
  | nil =>
    intro segs e np fuel hc
    cases hc
  | cons i rest ih =>
    intro segs e np fuel hc hf
    cases hc with
    | single _ s hl hn =>
      cases fuel with
      | zero => simp at hf
      | succ f =>
        have hml : moveLoop (f + 1) segs i np = updatePos segs i np := by
          rw [moveLoop, hl]
          show (match s.next with
            | some ne => moveLoop f (updatePos segs i np) ne s.pos
            | none => updatePos segs i np) = updatePos segs i np
          rw [hn]
        rw [hml]
        constructor
        · have hup : lookupSeg (updatePos segs i np) i = some { s with pos := np } := by
            rw [lookupSeg_updatePos_self, hl]
            rfl
          rw [chainPositions_cons segs i [] s hl, chainPositions_cons _ i [] _ hup]
          rfl
        · intro j hj
          simp at hj
          exact lookupSeg_updatePos_ne segs i j np hj
    | cons _ s e2 _ hl hn hc2 hm =>
      cases fuel with
      | zero => simp at hf
      | succ f =>
        have hml : moveLoop (f + 1) segs i np
            = moveLoop f (updatePos segs i np) e2 s.pos := by
          rw [moveLoop, hl]
          show (match s.next with
            | some ne => moveLoop f (updatePos segs i np) ne s.pos
            | none => updatePos segs i np) = moveLoop f (updatePos segs i np) e2 s.pos
          rw [hn]
        rw [hml]
        have hc2u : Chain (updatePos segs i np) e2 rest := chain_updatePos i np hc2
        have hfr : rest.length ≤ f := by
          simp at hf
          omega
        obtain ⟨ihpos, ihframe⟩ := ih (updatePos segs i np) e2 s.pos f hc2u hfr
        have hRi : lookupSeg (moveLoop f (updatePos segs i np) e2 s.pos) i
            = some { s with pos := np } := by
          rw [ihframe i hm, lookupSeg_updatePos_self, hl]
          rfl
        have hsame : chainPositions (updatePos segs i np) rest
            = chainPositions segs rest := by
          apply chainPositions_congr
          intro j hj
          have : j ≠ i := fun hc => hm (hc ▸ hj)
          rw [lookupSeg_updatePos_ne segs i j np this]
        constructor
        · rw [chainPositions_cons _ i rest _ hRi, ihpos, hsame,
            chainPositions_cons segs i rest s hl]
          have hne : chainPositions segs rest ≠ [] := by
            have := chainPositions_length hc2
            have hr : rest ≠ [] := chain_ne_nil hc2
            intro hcon
            rw [hcon] at this
            simp at this
            exact hr (List.eq_nil_of_length_eq_zero this.symm)
          cases hcp : chainPositions segs rest with
          | nil => exact absurd hcp hne
          | cons c cp => rw [List.dropLast_cons₂]
        · intro j hj
          simp at hj
          rw [ihframe j hj.2, lookupSeg_updatePos_ne segs i j np hj.1]

/-- The link structure of the store: every entity id with its next
reference, in store order. -/
def linkShape (segs : Store) : List (Nat × Option Nat) :=
  segs.map (fun q => (q.1, q.2.next))

theorem linkShape_updatePos (segs : Store) (e : Nat) (p : Position) :
    linkShape (updatePos segs e p) = linkShape segs := by
  induction segs with
  | nil => rfl
  | cons q rest ih =>
    by_cases hq : q.1 = e <;> simp [linkShape, updatePos, hq] at ih ⊢ <;> exact ih

theorem linkShape_moveLoop (fuel : Nat) :
    ∀ (segs : Store) (ent : Nat) (np : Position),
      linkShape (moveLoop fuel segs ent np) = linkShape segs := by
  induction fuel with
  | zero => intro segs ent np; rfl
  | succ f ih =>
    intro segs ent np
    rw [moveLoop]
    cases hl : lookupSeg segs ent with
    | none => exact ih segs ent np
    | some s =>
      show linkShape
        (match s.next with
        | some ne => moveLoop f (updatePos segs ent np) ne s.pos
        | none => updatePos segs ent np) = linkShape segs
      cases hn : s.next with
      | some e2 => rw [ih (updatePos segs ent np) e2 s.pos, linkShape_updatePos]
      | none => exact linkShape_updatePos segs ent np

/-- Claim C9: one run of move_snake spawns no segment, despawns no segment
and rewrites no next reference - the store keeps its ids and links in order;
foods, events and the id watermark are untouched, and the only head change
is committing next_direction into direction. -/
theorem move_snake_frame (w : World) :
    linkShape (move_snake w).segs = linkShape w.segs
    ∧ (move_snake w).segs.length = w.segs.length
    ∧ (move_snake w).segs.map Prod.fst = w.segs.map Prod.fst
    ∧ (move_snake w).foods = w.foods
    ∧ (move_snake w).events = w.events
    ∧ (move_snake w).headId = w.headId
    ∧ (move_snake w).nextId = w.nextId
    ∧ (move_snake w).head = commitDirection w.head := by
  cases hl : lookupSeg w.segs w.headId with
  | none => simp [move_snake, hl]
  | some s =>
    have hw : move_snake w
        = { w with head := commitDirection w.head,
                   segs := moveLoop w.segs.length w.segs w.headId
                     (s.pos.do_move w.head.next_direction) } := by
      simp [move_snake, hl, commitDirection]
    rw [hw]
    have hkeys := keys_moveLoop w.segs.length w.segs w.headId
      (s.pos.do_move w.head.next_direction)
    refine ⟨linkShape_moveLoop _ _ _ _, ?_, hkeys, rfl, rfl, rfl, rfl, rfl⟩
    calc (moveLoop w.segs.length w.segs w.headId
          (s.pos.do_move w.head.next_direction)).length
        = ((moveLoop w.segs.length w.segs w.headId
            (s.pos.do_move w.head.next_direction)).map Prod.fst).length := by
          rw [List.length_map]
      _ = (w.segs.map Prod.fst).length := by rw [hkeys]
      _ = w.segs.length := by rw [List.length_map]

/-- Claim C1: one run of move_snake over a chain with cells
[p0, ..., p_N-1] (head to tail) commits the pending direction d and leaves
the cells exactly [step(p0, d), p0, ..., p_N-2]: the head advances one cell
and every other segment takes its predecessor's old cell. -/
theorem move_snake_shift (w : World) (ids : List Nat)
    (hc : Chain w.segs w.headId ids) :
    ∃ s, lookupSeg w.segs w.headId = some s ∧
      chainPositions (move_snake w).segs ids
        = s.pos.do_move w.head.next_direction :: (chainPositions w.segs ids).dropLast := by
  obtain ⟨rest, hids⟩ := chain_head hc
  have hsm : (lookupSeg w.segs w.headId).isSome = true :=
    chain_lookup_isSome hc w.headId (by rw [hids]; exact List.mem_cons_self _ _)
  obtain ⟨s, hs⟩ := Option.isSome_iff_exists.mp hsm
  refine ⟨s, hs, ?_⟩
  have hfuel : ids.length ≤ w.segs.length := by
    have hle := nodup_subset_length (chain_nodup hc) (fun i hi => chain_subset_keys hc i hi)
    simpa [List.length_map] using hle
  have hsegs : (move_snake w).segs
      = moveLoop w.segs.length w.segs w.headId
          (s.pos.do_move w.head.next_direction) := by
    simp [move_snake, hs, commitDirection]
  rw [hsegs]
  exact (moveLoop_spec ids w.segs w.headId
    (s.pos.do_move w.head.next_direction) w.segs.length hc hfuel).1

/-- Witness for C1: the startup chain of spawn_snake shifting Left. -/
theorem move_snake_shift_witness :
    ∃ s, lookupSeg spawn_snake.segs spawn_snake.headId = some s ∧
      chainPositions (move_snake spawn_snake).segs [2, 1, 0]
        = s.pos.do_move spawn_snake.head.next_direction
            :: (chainPositions spawn_snake.segs [2, 1, 0]).dropLast :=
  move_snake_shift spawn_snake [2, 1, 0]
    (Chain.cons 2 { pos := { x := 12, y := 12 }, next := some 1 } 1 [1, 0]
      (by decide) rfl
      (Chain.cons 1 { pos := { x := 13, y := 12 }, next := some 0 } 0 [0]
        (by decide) rfl
        (Chain.single 0 { pos := { x := 14, y := 12 }, next := none }
          (by decide) rfl)
        (by decide))
      (by decide))

/-! ### eat_food lemmas -/

theorem eatStep_frame (hd : Position) (acc : World) (f : Nat × Position) :
    (eatStep hd acc f).segs = acc.segs
    ∧ (eatStep hd acc f).headId = acc.headId
    ∧ (eatStep hd acc f).head = acc.head
    ∧ (eatStep hd acc f).nextId = acc.nextId := by
  by_cases hf : f.2 = hd
  · cases ht : findTail acc.segs with
    | none => simp [eatStep, hf, ht]
    | some t => simp [eatStep, hf, ht]
  · simp [eatStep, hf]

theorem eatFold_frame (hd : Position) (l : List (Nat × Position)) :
    ∀ acc : World,
      (l.foldl (eatStep hd) acc).segs = acc.segs
      ∧ (l.foldl (eatStep hd) acc).headId = acc.headId
      ∧ (l.foldl (eatStep hd) acc).head = acc.head
      ∧ (l.foldl (eatStep hd) acc).nextId = acc.nextId := by
  induction l with
  | nil => intro acc; exact ⟨rfl, rfl, rfl, rfl⟩
  | cons f rest ih =>
    intro acc
    obtain ⟨h1, h2, h3, h4⟩ := eatStep_frame hd acc f
    obtain ⟨g1, g2, g3, g4⟩ := ih (eatStep hd acc f)
    rw [List.foldl_cons]
    exact ⟨g1.trans h1, g2.trans h2, g3.trans h3, g4.trans h4⟩

theorem eatFold_spec (hd : Position) (t : Nat × SnakeSegment) (l : List (Nat × Position)) :
    ∀ acc : World, findTail acc.segs = some t →
      (l.foldl (eatStep hd) acc).foods
          = acc.foods.filter
              (fun g => decide (g.1 ∉ (l.filter (fun f => f.2 = hd)).map Prod.fst))
      ∧ (l.foldl (eatStep hd) acc).events
          = acc.events ++ (l.filter (fun f => f.2 = hd)).map (fun _ => t.2.pos) := by
  induction l with
  | nil =>
    intro acc ht
    constructor
    · simp
    · simp
  | cons f rest ih =>
    intro acc ht
    by_cases hf : f.2 = hd
    · have hstep : eatStep hd acc f
          = { acc with foods := acc.foods.filter (fun g => g.1 ≠ f.1)
                       events := acc.events ++ [t.2.pos] } := by
        simp [eatStep, hf, ht]
      have ht2 : findTail (eatStep hd acc f).segs = some t := by
        rw [hstep]
        exact ht
      obtain ⟨ihf, ihe⟩ := ih (eatStep hd acc f) ht2
      constructor
      · rw [List.foldl_cons, ihf, hstep]
        show (acc.foods.filter (fun g => g.1 ≠ f.1)).filter _ = _
        rw [List.filter_filter]
        apply List.filter_congr
        intro g hg
        simp [List.filter_cons, hf, List.mem_cons, not_or, Bool.and_comm]
      · rw [List.foldl_cons, ihe, hstep]
        show (acc.events ++ [t.2.pos]) ++ _ = _
        simp [List.filter_cons, hf]
    · have hstep : eatStep hd acc f = acc := by simp [eatStep, hf]
      rw [List.foldl_cons, hstep]
      obtain ⟨ihf, ihe⟩ := ih acc ht
      constructor
      · rw [ihf]
        simp [List.filter_cons, hf]
      · rw [ihe]
        simp [List.filter_cons, hf]

/-- Claim C5: after a movement tick, eat_food despawns every food item
sitting on the head cell and sends one grow event per such item carrying the
current tail position; foods on other cells and the segment store are
untouched. -/
theorem eat_food_spec (w : World) (hs : SnakeSegment) (t : Nat × SnakeSegment)
    (hh : lookupSeg w.segs w.headId = some hs)
    (ht : findTail w.segs = some t)
    (hnd : (w.foods.map Prod.fst).Nodup) :
    (eat_food w).segs = w.segs
    ∧ (eat_food w).foods = w.foods.filter (fun f => f.2 ≠ hs.pos)
    ∧ (eat_food w).events
        = w.events ++ (w.foods.filter (fun f => f.2 = hs.pos)).map (fun _ => t.2.pos) := by
  have hef : eat_food w = w.foods.foldl (eatStep hs.pos) w := by
    simp [eat_food, hh]
  obtain ⟨hsg, hhid, hhd, hnid⟩ := eatFold_frame hs.pos w.foods w
  obtain ⟨hfo, hev⟩ := eatFold_spec hs.pos t w.foods w ht
  rw [hef]
  refine ⟨hsg, ?_, hev⟩
  rw [hfo]
  apply List.filter_congr
  intro g hg
  by_cases hgp : g.2 = hs.pos
  · have hin : g.1 ∈ (w.foods.filter (fun f => f.2 = hs.pos)).map Prod.fst :=
      List.mem_map_of_mem Prod.fst (List.mem_filter.mpr ⟨hg, by simp [hgp]⟩)
    simp [hin, hgp]
  · have hnotin : g.1 ∉ (w.foods.filter (fun f => f.2 = hs.pos)).map Prod.fst := by
      intro hin
      obtain ⟨f, hf, hf1⟩ := List.mem_map.mp hin
      obtain ⟨hfw, hfp⟩ := List.mem_filter.mp hf
      have hfg : f = g := List.inj_on_of_nodup_map hnd hfw hg hf1
      rw [hfg] at hfp
      simp at hfp
      exact hgp hfp
    simp [hnotin, hgp]

/-- Witness for C5 at the Scenario C world: the single food on the head cell
is despawned and one grow event carries the tail cell (13,12). -/
theorem eat_food_spec_witness :
    (eat_food scenarioC).segs = scenarioC.segs
    ∧ (eat_food scenarioC).foods
        = scenarioC.foods.filter (fun f => f.2 ≠ ({ x := 11, y := 12 } : Position))
    ∧ (eat_food scenarioC).events
        = scenarioC.events
            ++ (scenarioC.foods.filter
                (fun f => f.2 = ({ x := 11, y := 12 } : Position))).map
                  (fun _ => ({ x := 13, y := 12 } : Position)) :=
  eat_food_spec scenarioC { pos := { x := 11, y := 12 }, next := some 1 }
    (0, { pos := { x := 13, y := 12 }, next := none })
    (by decide) (by decide) (by decide)


/-! ### grow_snake lemmas -/

theorem lookupSeg_mem (segs : Store) (i : Nat) (s : SnakeSegment)
    (h : lookupSeg segs i = some s) : (i, s) ∈ segs := by
  induction segs with
  | nil => simp [lookupSeg] at h
  | cons q rest ih =>
    by_cases hq : q.1 = i
    · simp only [lookupSeg, hq, if_pos] at h
      have hqe : q = (i, s) := by
        cases q with
        | mk a b =>
          simp at hq h
          exact Prod.ext hq h
      rw [hqe]
      exact List.mem_cons_self _ rest
    · simp only [lookupSeg, hq, if_false] at h
      exact List.mem_cons_of_mem q (ih h)

theorem length_setNext (segs : Store) (e : Nat) (nx : Option Nat) :
    (setNext segs e nx).length = segs.length := by
  induction segs with
  | nil => rfl
  | cons q rest ih => by_cases hq : q.1 = e <;> simp [setNext, hq] at ih ⊢ <;> exact ih

theorem chain_tail_lookup {segs : Store} {e : Nat} {ids : List Nat}
    (hc : Chain segs e ids) :
    ∃ tl s, ids.getLast? = some tl ∧ lookupSeg segs tl = some s ∧ s.next = none := by
  induction hc with
  | single e1 s hl hn => exact ⟨e1, s, rfl, hl, hn⟩
  | cons e1 s e2 ids hl hn hc2 hm ih =>
    obtain ⟨tl, s2, hgl, hls, hnone⟩ := ih
    obtain ⟨r, hr⟩ := chain_head hc2
    refine ⟨tl, s2, ?_, hls, hnone⟩
    rw [hr] at hgl ⊢
    rw [List.getLast?_cons_cons]
    exact hgl

theorem chain_next_none_getLast {segs : Store} {e : Nat} {ids : List Nat}
    (hc : Chain segs e ids) :
    ∀ i ∈ ids, ∀ s, lookupSeg segs i = some s → s.next = none →
      ids.getLast? = some i := by
  induction hc with
  | single e1 s1 hl hn =>
    intro i hi s hls hnone
    simp at hi
    subst hi
    rfl
  | cons e1 s1 e2 ids hl hn hc2 hm ih =>
    intro i hi s hls hnone
    rcases List.mem_cons.mp hi with hi | hi
    · subst hi
      rw [hl] at hls
      cases hls
      rw [hn] at hnone
      cases hnone
    · obtain ⟨r, hr⟩ := chain_head hc2
      rw [hr, List.getLast?_cons_cons, ← hr]
      exact ih i hi s hls hnone

theorem findTail_eq {segs : Store} {hid : Nat} {ids : List Nat}
    (hc : Chain segs hid ids)
    (hdom : ∀ i ∈ segs.map Prod.fst, i ∈ ids)
    (hnd : (segs.map Prod.fst).Nodup) :
    ∃ tl s, findTail segs = some (tl, s) ∧ ids.getLast? = some tl
      ∧ lookupSeg segs tl = some s ∧ s.next = none := by
  obtain ⟨tl, s, hgl, hls, hnone⟩ := chain_tail_lookup hc
  have hmem : (tl, s) ∈ segs := lookupSeg_mem segs tl s hls
  cases hft : findTail segs with
  | none =>
    rw [findTail, List.find?_eq_none] at hft
    have := hft (tl, s) hmem
    simp [hnone] at this
  | some q =>
    have hqmem : q ∈ segs := List.mem_of_find?_eq_some hft
    have hqnone : q.2.next = none := by
      have := List.find?_some hft
      simpa [Option.isNone_iff_eq_none] using this
    have hqids : q.1 ∈ ids := hdom q.1 (List.mem_map_of_mem Prod.fst hqmem)
    have hqlk : lookupSeg segs q.1 = some q.2 := lookupSeg_of_mem_nodup segs q hnd hqmem
    have hqlast : ids.getLast? = some q.1 :=
      chain_next_none_getLast hc q.1 hqids q.2 hqlk hqnone
    have htl : q.1 = tl := by
      rw [hgl] at hqlast
      exact Option.some_inj.mp hqlast.symm
    have hseq : q.2 = s := by
      rw [htl, hls] at hqlk
      exact (Option.some_inj.mp hqlk).symm
    refine ⟨tl, s, ?_, hgl, hls, hnone⟩
    exact congrArg some (Prod.ext htl hseq)

theorem chain_grow (t n : Nat) (p : Position) {segs : Store} {e : Nat}
    {ids : List Nat} (hfr : lookupSeg segs n = none) (hc : Chain segs e ids) :
    ids.getLast? = some t → n ∉ ids →
    Chain (setNext segs t (some n) ++ [(n, { pos := p, next := none })]) e
      (ids ++ [n]) := by
  induction hc with
  | single e1 s hl hnone =>
    intro hgl hn
    have hte : t = e1 := by
      simp at hgl
      exact hgl.symm
    subst hte
    have hne : n ≠ t := by
      intro hcon
      exact hn (by rw [hcon]; exact List.mem_cons_self t [])
    refine Chain.cons t { s with next := some n } n [n] ?_ rfl ?_ ?_
    · apply lookupSeg_append_left
      rw [lookupSeg_setNext_self, hl]
      rfl
    · refine Chain.single n { pos := p, next := none } ?_ rfl
      have h1 : lookupSeg (setNext segs t (some n)) n = none := by
        rw [lookupSeg_setNext_ne segs t n (some n) hne]
        exact hfr
      rw [lookupSeg_append_right _ _ n h1]
      simp [lookupSeg]
    · simp
      intro hcon
      exact hne hcon.symm
  | cons e1 s e2 ids hl hnx hc2 hm ih =>
    intro hgl hn
    obtain ⟨r, hr⟩ := chain_head hc2
    have hgl2 : ids.getLast? = some t := by
      rw [hr] at hgl ⊢
      rw [List.getLast?_cons_cons] at hgl
      exact hgl
    have hn2 : n ∉ ids := fun hcon => hn (List.mem_cons_of_mem _ hcon)
    have hne1 : e1 ≠ t := by
      intro hcon
      have : t ∈ ids := List.mem_of_mem_getLast? hgl2
      rw [← hcon] at this
      exact hm this
    have hnee : e1 ≠ n := by
      intro hcon
      exact hn (by rw [hcon]; exact List.mem_cons_self n ids)
    rw [List.cons_append]
    refine Chain.cons e1 s e2 (ids ++ [n]) ?_ hnx (ih hgl2 hn2) ?_
    · apply lookupSeg_append_left
      rw [lookupSeg_setNext_ne segs t e1 (some n) hne1]
      exact hl
    · rw [List.mem_append]
      intro hcon
      rcases hcon with hcon | hcon
      · exact hm hcon
      · simp at hcon
        exact hnee hcon

theorem growOne_spec {segs : Store} {hid : Nat} {ids : List Nat} (n : Nat) (p : Position)
    (hc : Chain segs hid ids)
    (hdom : ∀ i ∈ segs.map Prod.fst, i ∈ ids)
    (hnd : (segs.map Prod.fst).Nodup)
    (hwm : ∀ i ∈ segs.map Prod.fst, i < n) :
    Chain (growOne segs n p) hid (ids ++ [n])
    ∧ (growOne segs n p).map Prod.fst = segs.map Prod.fst ++ [n]
    ∧ chainPositions (growOne segs n p) (ids ++ [n]) = chainPositions segs ids ++ [p]
    ∧ (growOne segs n p).length = segs.length + 1 := by
  obtain ⟨tl, s, hft, hgl, hls, hnone⟩ := findTail_eq hc hdom hnd
  have hnk : n ∉ segs.map Prod.fst := fun hin => lt_irrefl n (hwm n hin)
  have hfr : lookupSeg segs n = none := (lookupSeg_eq_none_iff segs n).mpr hnk
  have hnin : n ∉ ids := fun hin => hnk (chain_subset_keys hc n hin)
  have hntl : n ≠ tl := by
    intro hcon
    exact hnin (hcon ▸ List.mem_of_mem_getLast? hgl)
  have hgrow : growOne segs n p
      = setNext segs tl (some n) ++ [(n, { pos := p, next := none })] := by
    simp [growOne, hft]
  have hlkn : lookupSeg (setNext segs tl (some n)
      ++ [(n, { pos := p, next := none })]) n = some { pos := p, next := none } := by
    have h1 : lookupSeg (setNext segs tl (some n)) n = none := by
      rw [lookupSeg_setNext_ne segs tl n (some n) hntl]
      exact hfr
    rw [lookupSeg_append_right _ _ n h1]
    simp [lookupSeg]
  rw [hgrow]
  refine ⟨chain_grow tl n p hfr hc hgl hnin, ?_, ?_, ?_⟩
  · rw [List.map_append, keys_setNext]
    rfl
  · have hsplit : chainPositions
        (setNext segs tl (some n) ++ [(n, { pos := p, next := none })]) (ids ++ [n])
        = chainPositions (setNext segs tl (some n)
            ++ [(n, { pos := p, next := none })]) ids
          ++ chainPositions (setNext segs tl (some n)
            ++ [(n, { pos := p, next := none })]) [n] := by
      simp [chainPositions, List.filterMap_append]
    rw [hsplit]
    have h2 : chainPositions (setNext segs tl (some n)
        ++ [(n, { pos := p, next := none })]) ids = chainPositions segs ids := by
      apply chainPositions_congr
      intro i hi
      obtain ⟨si, hsi⟩ := Option.isSome_iff_exists.mp (chain_lookup_isSome hc i hi)
      by_cases hit : i = tl
      · subst hit
        have hset : lookupSeg (setNext segs i (some n)) i
            = some { s with next := some n } := by
          rw [lookupSeg_setNext_self, hls]
          rfl
        rw [lookupSeg_append_left _ _ i _ hset, hls]
        rfl
      · have hset : lookupSeg (setNext segs tl (some n)) i = some si := by
          rw [lookupSeg_setNext_ne segs tl i (some n) hit]
          exact hsi
        rw [lookupSeg_append_left _ _ i si hset, hsi]
    rw [h2]
    have h3 : chainPositions (setNext segs tl (some n)
        ++ [(n, { pos := p, next := none })]) [n] = [p] := by
      simp [chainPositions, hlkn]
    rw [h3]
  · rw [List.length_append, length_setNext]
    rfl

theorem growFold_spec (events : List Position) :
    ∀ (segs : Store) (nid hid : Nat) (ids : List Nat),
      Chain segs hid ids →
      (∀ i ∈ segs.map Prod.fst, i ∈ ids) →
      (segs.map Prod.fst).Nodup →
      (∀ i ∈ segs.map Prod.fst, i < nid) →
      ∃ newIds,
        newIds.length = events.length
        ∧ Chain (events.foldl growStep (segs, nid)).1 hid (ids ++ newIds)
        ∧ (events.foldl growStep (segs, nid)).1.map Prod.fst
            = segs.map Prod.fst ++ newIds
        ∧ chainPositions (events.foldl growStep (segs, nid)).1 (ids ++ newIds)
            = chainPositions segs ids ++ events
        ∧ (events.foldl growStep (segs, nid)).1.length = segs.length + events.length
        ∧ ((events.foldl growStep (segs, nid)).1.map Prod.fst).Nodup
        ∧ (∀ i ∈ (events.foldl growStep (segs, nid)).1.map Prod.fst,
            i < (events.foldl growStep (segs, nid)).2) := by
  induction events with
  | nil =>
    intro segs nid hid ids hc hdom hnd hwm
    exact ⟨[], rfl, by simpa using hc, by simp, by simp, by simp, by simpa using hnd,
      by simpa using hwm⟩
  | cons p rest ih =>
    intro segs nid hid ids hc hdom hnd hwm
    obtain ⟨hc1, hkeys1, hpos1, hlen1⟩ := growOne_spec nid p hc hdom hnd hwm
    have hdom1 : ∀ i ∈ (growOne segs nid p).map Prod.fst, i ∈ ids ++ [nid] := by
      intro i hi
      rw [hkeys1] at hi
      rcases List.mem_append.mp hi with hi | hi
      · exact List.mem_append.mpr (Or.inl (hdom i hi))
      · exact List.mem_append.mpr (Or.inr hi)
    have hnd1 : ((growOne segs nid p).map Prod.fst).Nodup := by
      rw [hkeys1]
      refine List.Nodup.append hnd (List.nodup_singleton nid) ?_
      intro a ha hb
      simp at hb
      subst hb
      exact lt_irrefl a (hwm a ha)
    have hwm1 : ∀ i ∈ (growOne segs nid p).map Prod.fst, i < nid + 1 := by
      intro i hi
      rw [hkeys1] at hi
      rcases List.mem_append.mp hi with hi | hi
      · exact Nat.lt_succ_of_lt (hwm i hi)
      · simp at hi
        omega
    obtain ⟨newIds, hnlen, hcr, hkeysr, hposr, hlenr, hndr, hwmr⟩ :=
      ih (growOne segs nid p) (nid + 1) hid (ids ++ [nid]) hc1 hdom1 hnd1 hwm1
    have hfold : (p :: rest).foldl growStep (segs, nid)
        = rest.foldl growStep (growOne segs nid p, nid + 1) := rfl
    refine ⟨nid :: newIds, by simp [hnlen], ?_, ?_, ?_, ?_, ?_, ?_⟩
    · rw [hfold]
      have : ids ++ nid :: newIds = (ids ++ [nid]) ++ newIds := by simp
      rw [this]
      exact hcr
    · rw [hfold, hkeysr, hkeys1]
      simp
    · rw [hfold]
      have hra : ids ++ nid :: newIds = (ids ++ [nid]) ++ newIds := by simp
      rw [hra, hposr, hpos1]
      simp
    · rw [hfold, hlenr, hlen1]
      simp
      omega
    · rw [hfold]
      exact hndr
    · rw [hfold]
      exact hwmr

/-- The deferred-command drain of fn grow_snake, following Bevy semantics:
each event looks the tail up among the segments already in the world, points
its next at the freshly allocated id, and queues the spawned segment in the
command buffer; the buffer is applied only after the whole drain.  A failing
tail lookup is the unwrap panic, modelled as none. -/
def growCmdLoop (events : List Position) (segs pending : Store) (nid : Nat) :
    Option (Store × Store × Nat) :=
  match events with
  | [] => some (segs, pending, nid)
  | p :: rest =>
    match findTail segs with
    | none => none
    | some t =>
      growCmdLoop rest (setNext segs t.1 (some nid))
        (pending ++ [(nid, { pos := p, next := none })]) (nid + 1)

/-- fn grow_snake under deferred commands: run the drain over the visible
store with an empty command buffer, then apply the buffered spawns (the
end-of-stage command flush).  none is the unwrap panic of the source. -/
def grow_snake_cmds (w : World) : Option World :=
  match growCmdLoop w.events w.segs [] w.nextId with
  | none => none
  | some r => some { w with segs := r.1 ++ r.2.1, nextId := r.2.2, events := [] }

/-- A reachable-shaped chain world whose queue holds two grow entries. -/
def twoGrowWorld : World :=
  { segs :=
      [ (0, { pos := { x := 13, y := 12 }, next := none })
      , (1, { pos := { x := 12, y := 12 }, next := some 0 })
      , (2, { pos := { x := 11, y := 12 }, next := some 1 }) ]
    headId := 2
    head := { direction := Direction.Left, next_direction := Direction.Left }
    foods := []
    events := [{ x := 13, y := 12 }, { x := 13, y := 12 }]
    nextId := 4 }

/-- Counterexample to C4 as stated: on a queue of two entries the drain does
not process each entry - the first entry points the old tail at the
command-deferred spawn, so the second entry's tail search over the visible
segments finds nothing and the source's find().unwrap() panics (none here)
instead of appending a second segment and emptying the queue. -/
theorem grow_snake_two_events_panic :
    twoGrowWorld.events.length = 2 ∧ grow_snake_cmds twoGrowWorld = none := by
  decide

/-- Claim C4 (amended): for a queue holding at most one pending entry - the
only drains the schedule produces, one eat event per tick at most -
grow_snake creates a fresh segment with no next reference at the entry's
recorded position, links the old tail to it so it becomes the tail, the
chain length grows by exactly the number of entries, and the queue is empty
afterwards; a drain of two or more entries instead panics on the second
tail lookup. -/
theorem grow_snake_single_spec (w : World) (ids : List Nat)
    (hc : Chain w.segs w.headId ids)
    (hdom : ∀ i ∈ w.segs.map Prod.fst, i ∈ ids)
    (hnd : (w.segs.map Prod.fst).Nodup)
    (hwm : ∀ i ∈ w.segs.map Prod.fst, i < w.nextId)
    (hone : w.events.length ≤ 1) :
    ∃ w', grow_snake_cmds w = some w'
      ∧ ∃ newIds,
        newIds.length = w.events.length
        ∧ Chain w'.segs w.headId (ids ++ newIds)
        ∧ chainPositions w'.segs (ids ++ newIds)
            = chainPositions w.segs ids ++ w.events
        ∧ w'.segs.length = w.segs.length + w.events.length
        ∧ w'.events = [] := by
  cases hev : w.events with
  | nil =>
    have hrun : grow_snake_cmds w = some { w with events := [] } := by
      simp [grow_snake_cmds, growCmdLoop, hev]
    refine ⟨{ w with events := [] }, hrun, [], by simp, ?_, ?_, ?_, rfl⟩
    · simpa using hc
    · simp
    · simp
  | cons p rest =>
    cases rest with
    | cons q rest2 =>
      rw [hev] at hone
      simp at hone
    | nil =>
      obtain ⟨tl, s, hft, hgl, hls, hnone⟩ := findTail_eq hc hdom hnd
      have hrun : grow_snake_cmds w = some { w with segs := growOne w.segs w.nextId p, nextId := w.nextId + 1, events := [] } := by
        simp [grow_snake_cmds, growCmdLoop, hev, hft, growOne]
      obtain ⟨hc1, hkeys1, hpos1, hlen1⟩ := growOne_spec w.nextId p hc hdom hnd hwm
      refine ⟨_, hrun, [w.nextId], by simp, ?_, ?_, ?_, rfl⟩
      · exact hc1
      · exact hpos1
      · simpa using hlen1

/-- Witness for C4 (amended): processing the single queued entry of
Scenario C after the eat appends the tail cell (13,12) and empties the
queue. -/
theorem grow_snake_single_spec_witness :
    ∃ w', grow_snake_cmds (eat_food scenarioC) = some w'
      ∧ ∃ newIds,
        newIds.length = (eat_food scenarioC).events.length
        ∧ Chain w'.segs (eat_food scenarioC).headId ([2, 1, 0] ++ newIds)
        ∧ chainPositions w'.segs ([2, 1, 0] ++ newIds)
            = chainPositions (eat_food scenarioC).segs [2, 1, 0]
                ++ (eat_food scenarioC).events
        ∧ w'.segs.length
            = (eat_food scenarioC).segs.length + (eat_food scenarioC).events.length
        ∧ w'.events = [] :=
  grow_snake_single_spec (eat_food scenarioC) [2, 1, 0]
    (Chain.cons 2 { pos := { x := 11, y := 12 }, next := some 1 } 1 [1, 0]
      (by decide) rfl
      (Chain.cons 1 { pos := { x := 12, y := 12 }, next := some 0 } 0 [0]
        (by decide) rfl
        (Chain.single 0 { pos := { x := 13, y := 12 }, next := none }
          (by decide) rfl)
        (by decide))
      (by decide))
    (by decide) (by decide) (by decide) (by decide)

/-! ### Reachability invariant (claim C8) -/

theorem eat_food_frame (w : World) :
    (eat_food w).segs = w.segs
    ∧ (eat_food w).headId = w.headId
    ∧ (eat_food w).head = w.head
    ∧ (eat_food w).nextId = w.nextId := by
  cases hl : lookupSeg w.segs w.headId with
  | none => simp [eat_food, hl]
  | some hs =>
    have : eat_food w = w.foods.foldl (eatStep hs.pos) w := by simp [eat_food, hl]
    rw [this]
    exact eatFold_frame hs.pos w.foods w

theorem wf_spawn_snake : WF spawn_snake := by
  refine ⟨[2, 1, 0], ?_, by decide, by decide, by decide⟩
  exact Chain.cons 2 { pos := { x := 12, y := 12 }, next := some 1 } 1 [1, 0]
    (by decide) rfl
    (Chain.cons 1 { pos := { x := 13, y := 12 }, next := some 0 } 0 [0]
      (by decide) rfl
      (Chain.single 0 { pos := { x := 14, y := 12 }, next := none }
        (by decide) rfl)
      (by decide))
    (by decide)

theorem wf_input (w : World) (k : KeyboardInput) (hwf : WF w) :
    WF { w with head := handle_input k w.head } := hwf

theorem wf_move (w : World) (hwf : WF w) : WF (move_snake w) := by
  obtain ⟨ids, hc, hdom, hnd, hwm⟩ := hwf
  obtain ⟨hsh, hlen, hkeys, hfo, hev, hhid, hnid, hhd⟩ := move_snake_frame w
  refine ⟨ids, ?_, ?_, ?_, ?_⟩
  · rw [hhid]
    cases hl : lookupSeg w.segs w.headId with
    | none =>
      have : (move_snake w).segs = w.segs := by simp [move_snake, hl]
      rw [this]
      exact hc
    | some s =>
      have : (move_snake w).segs = moveLoop w.segs.length w.segs w.headId
          (s.pos.do_move w.head.next_direction) := by
        simp [move_snake, hl, commitDirection]
      rw [this]
      exact chain_moveLoop w.segs.length w.segs w.headId _ hc
  · rw [hkeys]
    exact hdom
  · rw [hkeys]
    exact hnd
  · rw [hkeys, hnid]
    exact hwm

theorem wf_eat (w : World) (hwf : WF w) : WF (eat_food w) := by
  obtain ⟨ids, hc, hdom, hnd, hwm⟩ := hwf
  obtain ⟨hsg, hhid, hhd, hnid⟩ := eat_food_frame w
  exact ⟨ids, by rw [hsg, hhid]; exact hc, by rw [hsg]; exact hdom,
    by rw [hsg]; exact hnd, by rw [hsg, hnid]; exact hwm⟩

theorem wf_grow (w : World) (hwf : WF w) : WF (grow_snake w) := by
  obtain ⟨ids, hc, hdom, hnd, hwm⟩ := hwf
  obtain ⟨newIds, h1, h2, h3, h4, h5, h6, h7⟩ :=
    growFold_spec w.events w.segs w.nextId w.headId ids hc hdom hnd hwm
  refine ⟨ids ++ newIds, h2, ?_, h6, h7⟩
  intro i hi
  have hi2 : i ∈ (w.events.foldl growStep (w.segs, w.nextId)).1.map Prod.fst := hi
  rw [h3] at hi2
  rcases List.mem_append.mp hi2 with hi2 | hi2
  · exact List.mem_append.mpr (Or.inl (hdom i hi2))
  · exact List.mem_append.mpr (Or.inr hi2)

theorem wf_spawn (w w' : World) (draws : List (ℚ × ℚ)) (hwf : WF w)
    (hs : spawn_food draws w = some w') : WF w' := by
  obtain ⟨ids, hc, hdom, hnd, hwm⟩ := hwf
  rw [spawn_food] at hs
  cases hloop : spawnFoodLoop draws (w.foods.map Prod.snd)
      (w.segs.map (fun q => q.2.pos)) with
  | none => rw [hloop] at hs; cases hs
  | some p =>
    rw [hloop] at hs
    have hs2 : some ({ w with foods := w.foods ++ [(w.nextId, p)], nextId := w.nextId + 1 } : World) = some w' := hs
    have hw := Option.some_inj.mp hs2
    subst hw
    exact ⟨ids, hc, hdom, hnd, fun i hi => Nat.lt_succ_of_lt (hwm i hi)⟩

theorem reachable_wf (w : World) (hr : Reachable w) : WF w := by
  induction hr with
  | init => exact wf_spawn_snake
  | input w k hr ih => exact wf_input w k ih
  | move w hr ih => exact wf_move w ih
  | eat w hr ih => exact wf_eat w ih
  | grow w hr ih => exact wf_grow w ih
  | spawn w w' draws hr hs ih => exact wf_spawn w w' draws ih hs

/-- Claim C8: in every state reachable from the startup chain under the
scheduled systems, the segment store is one finite acyclic chain from the
head entity covering all segments, exactly one stored segment has no next
reference, and the tail lookup shared by eat_food and grow_snake succeeds. -/
theorem reachable_chain_invariant (w : World) (hr : Reachable w) :
    (∃ ids, Chain w.segs w.headId ids ∧ ∀ i ∈ w.segs.map Prod.fst, i ∈ ids)
    ∧ (∃! q : Nat × SnakeSegment, q ∈ w.segs ∧ q.2.next = none)
    ∧ (findTail w.segs).isSome = true := by
  obtain ⟨ids, hc, hdom, hnd, hwm⟩ := reachable_wf w hr
  obtain ⟨tl, s, hft, hgl, hls, hnone⟩ := findTail_eq hc hdom hnd
  refine ⟨⟨ids, hc, hdom⟩, ⟨(tl, s), ⟨lookupSeg_mem _ _ _ hls, hnone⟩, ?_⟩,
    by rw [hft]; rfl⟩
  rintro q ⟨hqmem, hqnone⟩
  have hqlk := lookupSeg_of_mem_nodup w.segs q hnd hqmem
  have hqids : q.1 ∈ ids := hdom q.1 (List.mem_map_of_mem Prod.fst hqmem)
  have hqlast := chain_next_none_getLast hc q.1 hqids q.2 hqlk hqnone
  have htl : q.1 = tl := by
    rw [hgl] at hqlast
    exact Option.some_inj.mp hqlast.symm
  have hs2 : q.2 = s := by
    rw [htl, hls] at hqlk
    exact Option.some_inj.mp hqlk.symm
  exact Prod.ext htl hs2

/-- Witness for C8 at the startup world itself. -/
theorem reachable_chain_invariant_witness :
    (∃ ids, Chain spawn_snake.segs spawn_snake.headId ids
        ∧ ∀ i ∈ spawn_snake.segs.map Prod.fst, i ∈ ids)
    ∧ (∃! q : Nat × SnakeSegment, q ∈ spawn_snake.segs ∧ q.2.next = none)
    ∧ (findTail spawn_snake.segs).isSome = true :=
  reachable_chain_invariant spawn_snake Reachable.init

/-! ### spawn_food lemmas (claim C6) -/

theorem drawCoord_bounds (u : ℚ) (h0 : 0 ≤ u) (h1 : u < 1) :
    0 ≤ drawCoord u ∧ drawCoord u < ARENA_SIZE := by
  constructor
  · rw [drawCoord]
    apply Int.le_floor.mpr
    push_cast
    apply mul_nonneg h0
    norm_num [ARENA_SIZE]
  · rw [drawCoord]
    apply Int.floor_lt.mpr
    have hlt : u * (ARENA_SIZE : ℚ) < 1 * (ARENA_SIZE : ℚ) := by
      apply mul_lt_mul_of_pos_right h1
      norm_num [ARENA_SIZE]
    simpa using hlt

theorem spawnFoodLoop_spec (draws : List (ℚ × ℚ)) (foodPs segPs : List Position)
    (p : Position)
    (hd : ∀ d ∈ draws, 0 ≤ d.1 ∧ d.1 < 1 ∧ 0 ≤ d.2 ∧ d.2 < 1)
    (h : spawnFoodLoop draws foodPs segPs = some p) :
    inArena p ∧ (∀ q ∈ foodPs, p ≠ q) ∧ (∀ q ∈ segPs, p ≠ q) := by
  induction draws with
  | nil => simp [spawnFoodLoop] at h
  | cons d rest ih =>
    obtain ⟨u, v⟩ := d
    rw [spawnFoodLoop] at h
    by_cases hall : (foodPs ++ segPs).all
        (fun q => decide (({ x := drawCoord u, y := drawCoord v } : Position) ≠ q)) = true
    · rw [if_pos hall] at h
      have hp : p = { x := drawCoord u, y := drawCoord v } :=
        (Option.some_inj.mp h).symm
      subst hp
      obtain ⟨hu0, hu1, hv0, hv1⟩ := hd (u, v) (List.mem_cons_self _ rest)
      obtain ⟨hx0, hx1⟩ := drawCoord_bounds u hu0 hu1
      obtain ⟨hy0, hy1⟩ := drawCoord_bounds v hv0 hv1
      have hne : ∀ q ∈ foodPs ++ segPs,
          ({ x := drawCoord u, y := drawCoord v } : Position) ≠ q := by
        intro q hq
        have := List.all_eq_true.mp hall q hq
        exact of_decide_eq_true this
      exact ⟨⟨hx0, hx1, hy0, hy1⟩,
        fun q hq => hne q (List.mem_append.mpr (Or.inl hq)),
        fun q hq => hne q (List.mem_append.mpr (Or.inr hq))⟩
    · rw [if_neg hall] at h
      exact ih (fun d hdm => hd d (List.mem_cons_of_mem _ hdm)) h

/-- Claim C6: whenever the rejection-sampling spawner terminates and creates
a food item, the new item's cell has both coordinates inside the arena and
collides with no existing food position and no segment position (head
included) at that instant. -/
theorem spawn_food_free (draws : List (ℚ × ℚ)) (w w' : World)
    (hd : ∀ d ∈ draws, 0 ≤ d.1 ∧ d.1 < 1 ∧ 0 ≤ d.2 ∧ d.2 < 1)
    (hs : spawn_food draws w = some w') :
    ∃ p, w'.foods = w.foods ++ [(w.nextId, p)]
      ∧ w'.segs = w.segs
      ∧ inArena p
      ∧ (∀ f ∈ w.foods, p ≠ f.2)
      ∧ (∀ q ∈ w.segs, p ≠ q.2.pos) := by
  rw [spawn_food] at hs
  cases hloop : spawnFoodLoop draws (w.foods.map Prod.snd)
      (w.segs.map (fun q => q.2.pos)) with
  | none => rw [hloop] at hs; cases hs
  | some p =>
    rw [hloop] at hs
    have hs2 : some ({ w with foods := w.foods ++ [(w.nextId, p)], nextId := w.nextId + 1 } : World) = some w' := hs
    have hw := Option.some_inj.mp hs2
    subst hw
    obtain ⟨hin, hf, hsg⟩ := spawnFoodLoop_spec draws _ _ p hd hloop
    refine ⟨p, rfl, rfl, hin, ?_, ?_⟩
    · intro f hfm
      exact hf f.2 (List.mem_map_of_mem Prod.snd hfm)
    · intro q hq
      exact hsg q.2.pos (List.mem_map_of_mem (fun r => r.2.pos) hq)

/-- The startup world right after a successful spawn at (0, 0). -/
def spawnedWorld : World :=
  { spawn_snake with foods := [(3, { x := 0, y := 0 })], nextId := 4 }

/-- Witness for C6: a draw of (0, 0) on the startup world creates a food at
(0, 0), inside the arena and clear of the three segments. -/
theorem spawn_food_free_witness :
    ∃ p, spawnedWorld.foods = spawn_snake.foods ++ [(spawn_snake.nextId, p)]
      ∧ spawnedWorld.segs = spawn_snake.segs
      ∧ inArena p
      ∧ (∀ f ∈ spawn_snake.foods, p ≠ f.2)
      ∧ (∀ q ∈ spawn_snake.segs, p ≠ q.2.pos) := by
  apply spawn_food_free [((0:ℚ), (0:ℚ))] spawn_snake
  · intro d hdm
    simp only [List.mem_singleton] at hdm
    subst hdm
    norm_num
  · have h00 : drawCoord 0 = 0 := by simp [drawCoord]
    simp [spawn_food, spawnFoodLoop, h00, spawn_snake, spawnedWorld]
